import Mathlib

/-!
A shallow embedding of the `mapparse` package of the pydonk repository:
the DMM map reader (`mapparse/reader.py`), the writer
(`mapparse/writer.py`) and the linter (`mapparse/linter.py`).

Modelling conventions:
* text is `List Char` (`Chars`); Python ordered dicts are association
  lists in insertion order;
* numeric property values are exact integers: the grammar's INT and
  SIGNED_INT literals are integers, and its FLOAT literals are modelled
  on their integral fragment (`1e+006`-style values produced by the
  writer); non-integral floats are outside the embedding's domain;
* Python exceptions (`KeyError`, `IndexError`, `RuntimeError`, parse
  errors) are modelled with `Option`/`Except` results.
-/

abbrev Chars := List Char

/-- The double-quote character, written via its code point. -/
def dquote : Char := Char.ofNat 34

/-- The single-quote character. -/
def squote : Char := Char.ofNat 39

/-- The backslash character. -/
def bslash : Char := Char.ofNat 92

/-- The opening-brace character. -/
def lbrace : Char := Char.ofNat 123

/-- The closing-brace character. -/
def rbrace : Char := Char.ofNat 125

/-- Python `d.get(k)` on an ordered dict modelled as an association list. -/
def alistGet {κ ν : Type} [DecidableEq κ] (k : κ) : List (κ × ν) → Option ν
  | [] => none
  | (k', v) :: rest => if k' = k then some v else alistGet k rest

/-- Python `d[k] = v` on an ordered dict: overwrite in place when the key is
present (keeping its position), append at the end otherwise. -/
def alistSet {κ ν : Type} [DecidableEq κ] (k : κ) (v : ν) : List (κ × ν) → List (κ × ν)
  | [] => [(k, v)]
  | (k', v') :: rest => if k' = k then (k, v) :: rest else (k', v') :: alistSet k v rest

/-- Python `','.join(parts)`-style joining of chunks with a separator. -/
def joinSep (sep : Chars) : List Chars → Chars
  | [] => []
  | [a] => a
  | a :: rest => a ++ sep ++ joinSep sep rest

/-!
## The value model

`prop_value` of the grammar in `mapparse/reader.py`: a closed union of
integers (INT / SIGNED_INT / integral FLOAT), strings (STRING with the
surrounding quotes stripped), `null`, tree paths (the `path` class),
resources (the `resource` class), `list(...)` values, and the
single-entry dicts the transformer builds from `kv_pair` inside lists.
-/

inductive Val where
  | num  (n : Int)
  | str  (s : Chars)
  | null
  | path (p : Chars)
  | res  (r : Chars)
  | list (xs : List Val)
  | dict (kvs : List (Chars × Val))

/-- Python `isinstance(v, dict)`. -/
def Val.isDict : Val → Bool
  | .dict _ => true
  | _ => false

/-!
## Decimal rendering of integers

`natChars`/`intChars` model Python `str` on `int`: the minimal decimal
digit string, with a leading minus sign for negative values.
-/

/-- Fuel-driven digit extraction; the fuel argument only forces
structural recursion, `natChars` supplies enough of it. -/
def natCharsAux : Nat → Nat → Chars
  | 0, _ => []
  | fuel + 1, m =>
      if m < 10 then [Nat.digitChar m]
      else natCharsAux fuel (m / 10) ++ [Nat.digitChar (m % 10)]

/-- The decimal digit string of a natural number (`str(m)` in Python). -/
def natChars (m : Nat) : Chars := natCharsAux (m + 1) m

/-- Python `str` on an int. -/
def intChars (n : Int) : Chars :=
  if n < 0 then '-' :: natChars n.natAbs else natChars n.natAbs

/-!
## `'{0:.0e}'.format` and `DMLargeNumber`

`'{0:.0e}'.format(v)` renders `v` with one significant digit in
scientific notation, rounding half-to-even, with a sign-prefixed
exponent of at least two digits.  This is exact decimal rounding for
every integer below `2^53`, where CPython's intermediate float
conversion is exact.  `DMLargeNumber.__format__` then inserts a `'0'`
right after the exponent sign (`writer.py`, lines 7-16).
-/

/-- Fuel-driven base-10 logarithm (structural twin of `Nat.log 10`). -/
def log10Aux : Nat → Nat → Nat
  | 0, _ => 0
  | fuel + 1, m => if m < 10 then 0 else log10Aux fuel (m / 10) + 1

/-- The number of decimal digits of `m`, minus one. -/
def log10 (m : Nat) : Nat := log10Aux m m

/-- Round a positive natural to one significant decimal digit, half to
even: the pair `(d, e)` with value `d * 10^e`, `1 ≤ d ≤ 9`. -/
def roundE0 (m : Nat) : Nat × Nat :=
  let e := log10 m
  let p := 10 ^ e
  let d := m / p
  let r := m % p
  let d' := if p < 2 * r then d + 1
            else if 2 * r < p then d
            else if d % 2 = 0 then d else d + 1
  if d' = 10 then (1, e + 1) else (d', e)

/-- The exponent digit string of Python's `e` format: zero-padded to at
least two digits. -/
def pyExpChars (e : Nat) : Chars :=
  if e < 10 then '0' :: natChars e else natChars e

/-- Python `'{0:.0e}'.format(n)` for an integer `n` (exact below `2^53`). -/
def pyFormatE0 (n : Int) : Chars :=
  if n = 0 then '0' :: 'e' :: '+' :: '0' :: '0' :: []
  else
    let (d, e) := roundE0 n.natAbs
    (if n < 0 then ['-'] else []) ++ natChars d ++ 'e' :: '+' :: pyExpChars e

/-- `'{0:.0e}'.format(DMLargeNumber(n))`: split the formatted text at the
`'e'`, and re-emit it with a `'0'` inserted after the exponent's sign
character (`mantissa + 'e' + exp[0] + '0' + exp[1:]`). -/
def dmLargeFormat (n : Int) : Chars :=
  let ss := pyFormatE0 n
  if 'e' ∈ ss then
    let mantissa := ss.takeWhile (fun c => c ≠ 'e')
    let exp := (ss.dropWhile (fun c => c ≠ 'e')).tail
    match exp with
    | c :: cs => mantissa ++ 'e' :: c :: '0' :: cs
    | [] => ss
  else ss

/-!
## The writer (`mapparse/writer.py`)
-/

/-- The `add_spacing` separator suffix of `Writer.write_val`'s list
branch: the flag starts as `""` and is latched to `" "` when the loop
meets a dict element, so it ends as `" "` exactly when some element of
the list is a dict. -/
def add_spacing (xs : List Val) : Chars :=
  if xs.any Val.isDict then [' '] else []

mutual

/-- `Writer.write_val` (`writer.py`, lines 50-80). -/
def write_val : Val → Chars
  | .res r => squote :: r ++ [squote]
  | .path p => p
  | .str s => dquote :: s ++ [dquote]
  | .dict kvs => joinSep (',' :: ' ' :: []) (write_kv_parts kvs)
  | .list xs =>
      'l' :: 'i' :: 's' :: 't' :: '(' :: []
        ++ joinSep (',' :: add_spacing xs) (write_parts xs) ++ [')']
  | .num n => if 999999 < n then dmLargeFormat n else intChars n
  | .null => 'n' :: 'u' :: 'l' :: 'l' :: []

/-- The `parts` list built by the loop of the list branch. -/
def write_parts : List Val → List Chars
  | [] => []
  | v :: vs => write_val v :: write_parts vs

/-- The `parts` list of the dict branch: one `key = value` chunk per
entry, the key rendered as a quoted string (`write_val(k)` on a `str`). -/
def write_kv_parts : List (Chars × Val) → List Chars
  | [] => []
  | (k, v) :: kvs => (dquote :: k ++ dquote :: ' ' :: '=' :: ' ' :: write_val v) :: write_kv_parts kvs

end

/-!
## Datums, tiles and the map model (`mapparse/reader.py`)
-/

/-- One tile datum: a type path plus the optional `values` property map
(the transformer only adds `values` when the datum had a brace block). -/
structure Datum where
  name : Chars
  values : Option (List (Chars × Val))

abbrev Tile := List Datum

abbrev Coord := Nat × Nat × Nat

/-- The `TreeToDmmData` result: the key table and the coordinate grid,
both in insertion order. -/
structure Model where
  keys : List (Chars × Tile)
  map  : List (Coord × List Chars)

/-- `Writer.write_datum`: the path, then — only when the datum has
properties — a brace block with `; `-newline-tab separated attributes. -/
def write_datum (d : Datum) : Chars :=
  d.name ++
    match d.values with
    | some vs =>
        lbrace :: '\n' :: '\t' :: []
          ++ joinSep (';' :: '\n' :: '\t' :: [])
              (vs.map fun kv => kv.1 ++ ' ' :: '=' :: ' ' :: write_val kv.2)
          ++ '\n' :: '\t' :: rbrace :: []
    | none => []

/-- `Writer.write_tile`: datums joined by comma-newline. -/
def write_tile (t : Tile) : Chars :=
  joinSep (',' :: '\n' :: []) (t.map write_datum)

/-- `Writer.write_key`: one `"key" = (...)` block. -/
def write_key (k : Chars) (t : Tile) : Chars :=
  dquote :: k ++ dquote :: ' ' :: '=' :: ' ' :: '(' :: '\n' :: write_tile t ++ [')']

/-- `Writer.write_keys`: the key blocks joined by newlines. -/
def write_keys (keys : List (Chars × Tile)) : Chars :=
  joinSep ['\n'] (keys.map fun kt => write_key kt.1 kt.2)

/-- `Writer.write_map`: one coordinate block per grid row. -/
def write_map (m : List (Coord × List Chars)) : Chars :=
  joinSep ['\n'] (m.map fun cr =>
    '(' :: natChars cr.1.1 ++ ',' :: natChars cr.1.2.1 ++ ',' :: natChars cr.1.2.2
      ++ ')' :: ' ' :: '=' :: ' ' :: lbrace :: dquote :: '\n' :: []
      ++ joinSep ['\n'] cr.2 ++ '\n' :: dquote :: rbrace :: [])

/-- The header sentinel line of the DMM format. -/
def headerTxt : Chars :=
  "//MAP CONVERTED BY dmm2tgm.py THIS HEADER COMMENT PREVENTS RECONVERSION, DO NOT REMOVE".data

/-- `Writer.write_file`: header line, key table, blank line, grid, final
newline.  File output is modelled as returning the written text. -/
def write_file (M : Model) : Chars :=
  headerTxt ++ '\n' :: write_keys M.keys ++ '\n' :: '\n' :: write_map M.map ++ ['\n']

/-!
## The tile mutation API (`mapparse/reader.py`, class `Tile`)
-/

/-- Python `list.pop(i)`: remove the element at index `i`. -/
def listPop (l : List α) (i : Nat) : List α := l.take i ++ l.drop (i + 1)

/-- `Tile.del_datums_of_type`: collect the indices of the datums whose
name equals the path (in increasing order, as `enumerate` yields them),
then pop them in decreasing order — `sorted(dels, reverse=True)` is the
reverse of the collected list. -/
def del_datums_of_type (t : Tile) (p : Chars) : Tile :=
  let dels := (t.enum.filter fun x => decide (x.2.name = p)).map Prod.fst
  dels.reverse.foldl listPop t

/-- `Tile.set_value`: look up the datum (`IndexError` is `none`), create
its `values` dict when missing, then set the key Python-style. -/
def set_value (t : Tile) (datum_idx : Nat) (k : Chars) (v : Val) : Option Tile :=
  match t.get? datum_idx with
  | none => none
  | some d => some (t.set datum_idx { d with values := some (alistSet k v (d.values.getD [])) })

/-- `Tile.get_value` (`self.d[datum_idx]['values'][k]`): any missing
index, missing `values` dict or missing key raises — modelled as `none`. -/
def get_value (t : Tile) (datum_idx : Nat) (k : Chars) : Option Val :=
  match t.get? datum_idx with
  | none => none
  | some d =>
      match d.values with
      | none => none
      | some vs => alistGet k vs

/-!
## The parser

`Reader.Read` feeds the file text to a LALR parser for `DMM_GRAMMAR`
whose transformer (`TreeToDmmData`) produces the model directly.  The
grammar is deterministic with one token of lookahead, so it is embedded
as a recursive-descent parser over `Chars`: each function mirrors one
grammar rule together with the corresponding transformer method, `%ignore
WS` becomes an explicit `skipWs` at token boundaries, and the `Nat` fuel
arguments only bound the recursion (callers pass the remaining input
length, which the consumed text always bounds).  Failures anywhere are
`none`, matching the fatal parse error of the source.  Two deliberate
domain restrictions, both outside anything the writer emits: FLOAT
literals are only parsed on their integral fragment (digits with a
non-negative exponent), and whitespace inside a `treepath` is not
accepted.
-/

/-- Whitespace ignored by the grammar (`%ignore WS`). -/
def isWs (c : Char) : Bool := c = ' ' || c = '\n' || c = '\t' || c = '\r'

def skipWs (s : Chars) : Chars := s.dropWhile isWs

/-- First character of a CNAME. -/
def isCnameStart (c : Char) : Bool := c.isAlpha || c = '_'

/-- Any character of a CNAME. -/
def isCnameChar (c : Char) : Bool := c.isAlpha || c.isDigit || c = '_'

/-- Match a literal token at the head of the input. -/
def expectTok (lit : Chars) (s : Chars) : Option Chars :=
  if lit.isPrefixOf s then some (s.drop lit.length) else none

/-- The anonymous `list(` terminal. -/
def listTok : Chars := 'l' :: 'i' :: 's' :: 't' :: '(' :: []

/-- The `NULL` terminal. -/
def nullTok : Chars := 'n' :: 'u' :: 'l' :: 'l' :: []

/-- Read one CNAME token (maximal munch). -/
def parseCname (s : Chars) : Option (Chars × Chars) :=
  match s with
  | c :: rest =>
      if isCnameStart c then
        some (c :: rest.takeWhile isCnameChar, rest.dropWhile isCnameChar)
      else none
  | [] => none

/-- Read the literal content of a STRING/resource token up to the first
unescaped closing quote `q`, keeping escape pairs verbatim — the
transformer strips only the surrounding quotes, it does not unescape.
Both token regexes are built on `.` without DOTALL, so a raw newline
anywhere in the content (even right after a backslash) is a lex error. -/
def readStrInner (q : Char) : Chars → Option (Chars × Chars)
  | [] => none
  | c :: rest =>
      if c = q then some ([], rest)
      else if c = '\n' then none
      else if c = bslash then
        match rest with
        | c2 :: rest2 =>
            if c2 = '\n' then none
            else (readStrInner q rest2).map fun p => (c :: c2 :: p.1, p.2)
        | [] => none
      else (readStrInner q rest).map fun p => (c :: p.1, p.2)

/-- The numeric value of a digit string. -/
def digitsToNat (ds : Chars) : Nat := ds.foldl (fun a c => 10 * a + (c.toNat - '0'.toNat)) 0

/-- Read an INT token: one or more digits. -/
def parseUIntTok (s : Chars) : Option (Nat × Chars) :=
  let ds := s.takeWhile Char.isDigit
  if ds = [] then none else some (digitsToNat ds, s.dropWhile Char.isDigit)

/-- Read an unsigned INT or integral FLOAT token (maximal munch, like
the lexer: digits, then an optional exponent part). -/
def parseUnsignedNum (s : Chars) : Option (Int × Chars) :=
  match parseUIntTok s with
  | none => none
  | some (m, rest) =>
      match rest with
      | c :: r2 =>
          if c = '.' then none
          else if c = 'e' || c = 'E' then
            match r2 with
            | c2 :: r3 =>
                if c2 = '-' then none
                else if c2 = '+' then
                  (parseUIntTok r3).map fun p => (((m * 10 ^ p.1 : Nat) : Int), p.2)
                else (parseUIntTok r2).map fun p => (((m * 10 ^ p.1 : Nat) : Int), p.2)
            | [] => none
          else some ((m : Int), rest)
      | [] => some ((m : Int), [])

/-- Read a numeric `prop_value`: a sign makes it a SIGNED_INT token (the
grammar has no signed FLOAT), otherwise INT/FLOAT. -/
def parseNumber (s : Chars) : Option (Int × Chars) :=
  match s with
  | c :: r =>
      if c = '-' then (parseUIntTok r).map fun p => (-(p.1 : Int), p.2)
      else if c = '+' then (parseUIntTok r).map fun p => ((p.1 : Int), p.2)
      else parseUnsignedNum (c :: r)
  | [] => none

/-- A character that can occur in a `treepath` token run. -/
def pathChar (c : Char) : Bool := isCnameChar c || c = '/'

/-- Validate the tail of a path after a CNAME character has been seen:
more CNAME characters, or slash-CNAME groups. -/
def pathOkTail : Chars → Bool
  | [] => true
  | [c] => isCnameChar c
  | c :: c2 :: rest =>
      if isCnameChar c then pathOkTail (c2 :: rest)
      else c = '/' && isCnameStart c2 && pathOkTail rest

/-- A string of shape `("/" CNAME)+`, the text of a `treepath`. -/
def pathOk : Chars → Bool
  | c0 :: c :: rest => c0 = '/' && isCnameStart c && pathOkTail rest
  | _ => false

/-- Read a `treepath`: the maximal run of path characters, validated. -/
def parsePath (s : Chars) : Option (Chars × Chars) :=
  let tk := s.takeWhile pathChar
  if pathOk tk then some (tk, s.dropWhile pathChar) else none

mutual

/-- Parse one `prop_value`.  The first character decides the branch, as
the contextual lexer does for the terminals allowed here. -/
def parseVal : Nat → Chars → Option (Val × Chars)
  | 0, _ => none
  | fuel + 1, s =>
      match skipWs s with
      | [] => none
      | c :: rest =>
          if c = dquote then (readStrInner dquote rest).map fun p => (Val.str p.1, p.2)
          else if c = squote then (readStrInner squote rest).map fun p => (Val.res p.1, p.2)
          else if c = '/' then (parsePath (c :: rest)).map fun p => (Val.path p.1, p.2)
          else if c = 'n' then (expectTok nullTok (c :: rest)).map fun r => (Val.null, r)
          else if c = 'l' then
            match expectTok listTok (c :: rest) with
            | some r => (parseElems fuel r).map fun p => (Val.list p.1, p.2)
            | none => none
          else (parseNumber (c :: rest)).map fun p => (Val.num p.1, p.2)

/-- Parse the comma-separated elements of a `dmlist` and its closing
parenthesis. -/
def parseElems : Nat → Chars → Option (List Val × Chars)
  | 0, _ => none
  | fuel + 1, s => do
      let (v, s1) ← parseListElem fuel s
      match skipWs s1 with
      | ',' :: r => do
          let (vs, r') ← parseElems fuel r
          pure (v :: vs, r')
      | ')' :: r => pure ([v], r)
      | _ => none

/-- Parse one `dmlist` element: `kv_pair` when a STRING is followed by
`=` (the transformer wraps it in a single-entry dict), else `prop_value`. -/
def parseListElem : Nat → Chars → Option (Val × Chars)
  | 0, _ => none
  | fuel + 1, s =>
      match skipWs s with
      | c :: rest =>
          if c = dquote then
            match readStrInner dquote rest with
            | some (str, s1) =>
                match skipWs s1 with
                | c2 :: r2 =>
                    if c2 = '=' then (parseVal fuel r2).map fun p => (Val.dict [(str, p.1)], p.2)
                    else some (Val.str str, s1)
                | [] => some (Val.str str, s1)
            | none => none
          else parseVal fuel (c :: rest)
      | [] => none

end

/-- Parse `datum_prop (";" datum_prop)* "}"` after the opening brace. -/
def parseProps : Nat → Chars → Option (List (Chars × Val) × Chars)
  | 0, _ => none
  | fuel + 1, s => do
      let (k, s1) ← parseCname (skipWs s)
      match skipWs s1 with
      | '=' :: s3 => do
          let (v, s4) ← parseVal (s3.length + 1) s3
          match skipWs s4 with
          | ';' :: r => do
              let (props, r') ← parseProps fuel r
              pure ((k, v) :: props, r')
          | c :: r => if c = rbrace then pure ([(k, v)], r) else none
          | [] => none
      | _ => none

/-- Parse one `tile_datum`; the transformer folds the prop list into a
dict (later duplicate keys overwrite). -/
def parseDatum (s : Chars) : Option (Datum × Chars) := do
  let (p, s1) ← parsePath (skipWs s)
  match skipWs s1 with
  | c :: r =>
      if c = lbrace then do
        let (props, r') ← parseProps (r.length + 1) r
        pure ({ name := p,
                values := some (props.foldl (fun acc kv => alistSet kv.1 kv.2 acc) []) }, r')
      else pure ({ name := p, values := none }, s1)
  | [] => pure ({ name := p, values := none }, s1)

/-- Parse `key_tile`: datums separated by commas, then the closing
parenthesis of the key declaration. -/
def parseTile : Nat → Chars → Option (Tile × Chars)
  | 0, _ => none
  | fuel + 1, s => do
      let (d, s1) ← parseDatum s
      match skipWs s1 with
      | ',' :: r => do
          let (ds, r') ← parseTile fuel r
          pure (d :: ds, r')
      | ')' :: r => pure ([d], r)
      | _ => none

/-- Parse one `dmm_keydecl`. -/
def parseKeydecl (s : Chars) : Option ((Chars × Tile) × Chars) :=
  match skipWs s with
  | c :: r =>
      if c = dquote then do
        let (k, r1) ← parseCname (skipWs r)
        match skipWs r1 with
        | c2 :: r2 =>
            if c2 = dquote then
              match skipWs r2 with
              | '=' :: r3 =>
                  match skipWs r3 with
                  | '(' :: r4 => do
                      let (t, r5) ← parseTile (r4.length + 1) r4
                      pure ((k, t), r5)
                  | _ => none
              | _ => none
            else none
        | [] => none
      else none
  | [] => none

/-- Parse `dmm_keydecl*`, folding each declaration into the ordered
`keys` dict exactly as `TreeToDmmData.dmm_keydecl` does. -/
def parseKeydecls : Nat → List (Chars × Tile) → Chars → Option (List (Chars × Tile) × Chars)
  | 0, _, _ => none
  | fuel + 1, acc, s =>
      match skipWs s with
      | c :: r =>
          if c = dquote then do
            let (kt, s1) ← parseKeydecl (c :: r)
            parseKeydecls fuel (alistSet kt.1 kt.2 acc) s1
          else pure (acc, s)
      | [] => pure (acc, s)

/-- Parse the `dmm_key*` run of a row up to the closing `"}` token. -/
def parseRowKeys : Nat → Chars → Option (List Chars × Chars)
  | 0, _ => none
  | fuel + 1, s =>
      match skipWs s with
      | c :: r =>
          if c = dquote then
            match r with
            | c2 :: r2 => if c2 = rbrace then some ([], r2) else none
            | [] => none
          else do
            let (k, s1) ← parseCname (c :: r)
            let (ks, s2) ← parseRowKeys fuel s1
            pure (k :: ks, s2)
      | [] => none

/-- Parse one `dmm_row`: the coordinate triple, `=`, and the quoted key
block (the `{"` and `"}` delimiters are single tokens). -/
def parseRow (s : Chars) : Option ((Coord × List Chars) × Chars) :=
  match skipWs s with
  | '(' :: r1 => do
      let (a, r2) ← parseUIntTok (skipWs r1)
      match skipWs r2 with
      | ',' :: r3 => do
          let (b, r4) ← parseUIntTok (skipWs r3)
          match skipWs r4 with
          | ',' :: r5 => do
              let (c, r6) ← parseUIntTok (skipWs r5)
              match skipWs r6 with
              | ')' :: r7 =>
                  match skipWs r7 with
                  | '=' :: r8 =>
                      match skipWs r8 with
                      | c2 :: r9 =>
                          if c2 = lbrace then
                            match r9 with
                            | c3 :: r10 =>
                                if c3 = dquote then do
                                  let (ks, r11) ← parseRowKeys (r10.length + 1) r10
                                  pure (((a, b, c), ks), r11)
                                else none
                            | [] => none
                          else none
                      | [] => none
                  | _ => none
              | _ => none
          | _ => none
      | _ => none
  | _ => none

/-- Parse `dmm_row*`, folding each row into the ordered `map` dict as
`TreeToDmmData.dmm_row` does. -/
def parseRows : Nat → List (Coord × List Chars) → Chars → Option (List (Coord × List Chars) × Chars)
  | 0, _, _ => none
  | fuel + 1, acc, s =>
      match skipWs s with
      | '(' :: r => do
          let (cr, s1) ← parseRow ('(' :: r)
          parseRows fuel (alistSet cr.1 cr.2 acc) s1
      | _ => pure (acc, s)

/-- Parse a whole file: the header sentinel, the key declarations, the
rows, and nothing else. -/
def parse (s : Chars) : Option Model := do
  let r ← expectTok headerTxt (skipWs s)
  let (keys, r1) ← parseKeydecls (r.length + 1) [] r
  let (rows, r2) ← parseRows (r1.length + 1) [] r1
  if skipWs r2 = [] then pure { keys := keys, map := rows } else none

/-!
## The reader object (`mapparse/reader.py`, class `Reader`)
-/

inductive ReadErr where
  /-- A lark parse failure: fatal, no partial model. -/
  | formatError
  /-- `RuntimeError("DMM already parsed")`. -/
  | alreadyParsed
deriving DecidableEq

/-- The mutable state of a `Reader`: the `parsed` flag (the filename is
irrelevant once the contents are passed in). -/
structure ReaderState where
  parsed : Bool
deriving DecidableEq

/-- A fresh reader (`Reader.__init__` sets `self.parsed = False`). -/
def Reader.init : ReaderState := { parsed := false }

/-- `Reader.Read`: fail when already consumed, else parse the file
contents and mark the reader consumed. -/
def Reader.Read (contents : Chars) (st : ReaderState) : Except ReadErr (Model × ReaderState) :=
  if st.parsed then .error .alreadyParsed
  else
    match parse contents with
    | none => .error .formatError
    | some m => .ok (m, { parsed := true })

/-!
## The linter (`mapparse/linter.py`)
-/

/-- `CheckResult = namedtuple('CheckResult', ['severity', 'message'])`;
severities are the `Severity` integer constants. -/
structure CheckResult where
  severity : Nat
  message : String
deriving DecidableEq

/-- One entry of the checklist: `single` models
`issubclass(check, SingleTileChecker)` and `run` models
`check().perform_check(tile)`. -/
structure Check where
  single : Bool
  run : Tile → List CheckResult

/-- Display coordinates: `256 - y` may go below zero in Python, so the
flipped coordinates live in the integers. -/
abbrev ICoord := Int × Int × Int

abbrev Failures := List (ICoord × List CheckResult)

/-- The `all_findings` list of one tile: one result list per
`SingleTileChecker` subclass of the checklist, in order. -/
def all_findings (checklist : List Check) (tile : Tile) : List (List CheckResult) :=
  checklist.foldl (fun acc ch => if ch.single then acc ++ [ch.run tile] else acc) []

/-- Append one result to an existing coordinate entry
(`self.lint_failures[flipped_coords].append(result)`). -/
def alistAppendEntry (coord : ICoord) (r : CheckResult) (f : Failures) : Failures :=
  f.map fun e => if e.1 = coord then (e.1, e.2 ++ [r]) else e

/-- Record one check's nonempty result list under a coordinate: create
the entry on first use, then append each result. -/
def recordResults (coord : ICoord) (fails : Failures) (results : List CheckResult) : Failures :=
  if results = [] then fails
  else
    let fails := if (alistGet coord fails).isSome then fails else fails ++ [(coord, [])]
    results.foldl (fun f r => alistAppendEntry coord r f) fails

/-- The body of `perform_checks` for one key of one row: resolve the key
(`KeyError` is `none`), run the checks, record the findings. -/
def processTile (checklist : List Check) (keys : List (Chars × Tile)) (coord : ICoord)
    (key : Chars) (fails : Failures) : Option Failures := do
  let tile ← alistGet key keys
  let afs := all_findings checklist tile
  pure (if afs = [] then fails else afs.foldl (recordResults coord) fails)

/-- Process one grid row: `y` counts the key's position from 1 and the
displayed coordinate is `(x, 256 - y, z)`. -/
def processRow (checklist : List Check) (keys : List (Chars × Tile)) (x z : Nat) :
    Nat → List Chars → Failures → Option Failures
  | _, [], fails => some fails
  | y, key :: rest, fails => do
      let fails' ← processTile checklist keys ((x : Int), 256 - (y : Int), (z : Int)) key fails
      processRow checklist keys x z (y + 1) rest fails'

/-- Process the grid entries in order (`x = coords[0]`, `z = coords[2]`;
`coords[1]` is not read). -/
def processEntries (checklist : List Check) (keys : List (Chars × Tile)) :
    List (Coord × List Chars) → Failures → Option Failures
  | [], fails => some fails
  | (coords, row) :: rest, fails => do
      let fails' ← processRow checklist keys coords.1 coords.2.2 1 row fails
      processEntries checklist keys rest fails'

/-- The `lint_failures` dict `perform_checks` builds from scratch for a
given model. -/
def computeFailures (checklist : List Check) (md : Model) : Option Failures :=
  processEntries checklist md.keys md.map []

/-- The mutable state of a `Linter`: its findings and the cached model. -/
structure LinterState where
  lint_failures : Failures
  mapdata : Option Model

/-- `Linter.perform_checks`: clear the stored findings, read the map on
first use (the `readResult` argument stands for what `self.reader.Read()`
returns), then accumulate findings from scratch. -/
def perform_checks (checklist : List Check) (readResult : Model) (st : LinterState) :
    Option LinterState := do
  let md := st.mapdata.getD readResult
  let fails ← computeFailures checklist md
  pure { lint_failures := fails, mapdata := some md }

/-!
## Specification-side helpers

The functions below are not part of the source; they express the shapes
the theorems compare the source functions against.
-/

/-- All findings of one tile, flattened across the single-tile checks. -/
def tileFindings (checklist : List Check) (tile : Tile) : List CheckResult :=
  (all_findings checklist tile).flatten

/-- The display-coordinate/key pairs of one row, in processing order. -/
def rowPairs (x z : Nat) : Nat → List Chars → List (ICoord × Chars)
  | _, [] => []
  | y, k :: rest => (((x : Int), 256 - (y : Int), (z : Int)), k) :: rowPairs x z (y + 1) rest

/-- The display-coordinate/key pairs of a whole grid, in processing order. -/
def gridPairs : List (Coord × List Chars) → List (ICoord × Chars)
  | [] => []
  | (coords, row) :: rest => rowPairs coords.1 coords.2.2 1 row ++ gridPairs rest

/-- The findings a list of processed pairs contributes to coordinate `d`. -/
def gatherAt (checklist : List Check) (keys : List (Chars × Tile)) (d : ICoord) :
    List (ICoord × Chars) → List CheckResult
  | [] => []
  | (c, k) :: rest =>
      (if c = d then
        (match alistGet k keys with
         | some t => tileFindings checklist t
         | none => []) else []) ++ gatherAt checklist keys d rest

/-- Merge an optional existing entry with newly recorded findings: no
entry is ever created for an empty contribution. -/
def combineFind : Option (List CheckResult) → List CheckResult → Option (List CheckResult)
  | none, [] => none
  | none, ys => some ys
  | some xs, ys => some (xs ++ ys)

/-- Replace every grid coordinate's second component (used to state that
`perform_checks` never reads it). -/
def remapB (g : Coord → Nat) : List (Coord × List Chars) → List (Coord × List Chars) :=
  List.map fun cr => ((cr.1.1, g cr.1, cr.1.2.2), cr.2)

mutual

/-- The size measure driving the fuel bounds of the value parser. -/
def sizeV : Val → Nat
  | .num _ => 1
  | .str _ => 1
  | .null => 1
  | .path _ => 1
  | .res _ => 1
  | .list xs => 1 + sizeL xs
  | .dict kvs => 1 + sizeKvs kvs

def sizeL : List Val → Nat
  | [] => 1
  | v :: vs => 1 + sizeV v + sizeL vs

def sizeKvs : List (Chars × Val) → Nat
  | [] => 0
  | kv :: kvs => 1 + sizeV kv.2 + sizeKvs kvs

end

/-- The rounded value `'{0:.0e}'` denotes: what a large number becomes
after one trip through the writer and the parser. -/
def sciVal (n : Int) : Int :=
  ((roundE0 n.natAbs).1 * 10 ^ (roundE0 n.natAbs).2 : Nat)

mutual

/-- Value normalisation performed by a write/parse round trip: every
number above the scientific-notation threshold is rounded to one
significant digit; everything else survives verbatim. -/
def normVal : Val → Val
  | .num n => .num (if 999999 < n then sciVal n else n)
  | .str s => .str s
  | .null => .null
  | .path p => .path p
  | .res r => .res r
  | .list xs => .list (normList xs)
  | .dict kvs => .dict (normKvs kvs)

def normList : List Val → List Val
  | [] => []
  | v :: vs => normVal v :: normList vs

def normKvs : List (Chars × Val) → List (Chars × Val)
  | [] => []
  | kv :: kvs => (kv.1, normVal kv.2) :: normKvs kvs

end

/-- STRING/resource content the lexer accepts between quotes `q`: no
unescaped `q`, no dangling backslash, and no raw newline anywhere (the
`ESCAPED_STRING` and resource regexes use `.` without DOTALL, which
cannot match across a newline — not even as the escaped character). -/
def validInner (q : Char) : Chars → Bool
  | [] => true
  | c :: rest =>
      if c = q then false
      else if c = '\n' then false
      else if c = bslash then
        match rest with
        | c2 :: r2 => if c2 = '\n' then false else validInner q r2
        | [] => false
      else validInner q rest

mutual

/-- Well-formed values: contents produced by the transformer, restricted
to what the grammar can read back (and to exactly-representable numbers). -/
def wfVal : Val → Bool
  | .num n => decide (n.natAbs < 2 ^ 53)
  | .str s => validInner dquote s
  | .null => true
  | .path p => pathOk p
  | .res r => validInner squote r
  | .list xs => !xs.isEmpty && wfElems xs
  | .dict _ => false

def wfElems : List Val → Bool
  | [] => true
  | .dict kvs :: rest => wfKvSingle kvs && wfElems rest
  | v :: rest => wfVal v && wfElems rest

/-- A `kv_pair` element: the transformer only ever builds single-entry
dicts inside lists. -/
def wfKvSingle : List (Chars × Val) → Bool
  | [(k, v)] => validInner dquote k && wfVal v
  | _ => false

end

/-- A character that may legally follow a serialized value in writer
output: the property separator, the list separator, a closing
parenthesis, or the newline before a closing brace. -/
def isValTerm (c : Char) : Bool := c = ';' || c = ',' || c = ')' || c = '\n'

/-- A character that may follow a list element: the separator or the
closing parenthesis. -/
def listTerm (c : Char) : Bool := c = ',' || c = ')'

/-- The input continues with a value terminator. -/
def valTermAt (rest : Chars) : Prop := ∃ c r, rest = c :: r ∧ isValTerm c = true

/-- The input continues with a list-element terminator. -/
def listTermAt (rest : Chars) : Prop := ∃ c r, rest = c :: r ∧ listTerm c = true

/-!
## Concrete instances used by witnesses
-/

/-- A tiny well-formed model: one key, one bare datum, one grid row. -/
def exModel : Model :=
  { keys := [(['a'], [⟨'/' :: 't' :: [], none⟩])], map := [((1, 1, 1), [['a']])] }

/-- A one-datum tile carrying a property explicitly set to null. -/
def exTile : Tile := [⟨'/' :: 'a' :: [], some [(['p'], Val.null)]⟩]

/-- A model whose single grid entry has a nontrivial second coordinate. -/
def exModelB : Model :=
  { keys := [(['a'], exTile)], map := [((3, 7, 4), [['a']])] }

/-- A single-tile check that flags every nonempty tile exactly once. -/
def exCheck : Check := ⟨true, fun t => if t.isEmpty then [] else [⟨2, "tile"⟩]⟩

/-- A single-tile check that never flags anything. -/
def exCheckNone : Check := ⟨true, fun _ => []⟩

/-- A two-check checklist of which only the first ever flags. -/
def exChecklist : List Check := [exCheck, exCheckNone]

/-- The positions `Tile.del_datums_of_type` collects, relative to the
front of the list. -/
def delIdx (p : Chars) : Tile → List Nat
  | [] => []
  | d :: t => if d.name = p then 0 :: (delIdx p t).map (· + 1) else (delIdx p t).map (· + 1)

/-!
## Generic text lemmas
-/

theorem skipWs_cons (c : Char) (s : Chars) :
    skipWs (c :: s) = if isWs c then skipWs s else c :: s := by
  simp [skipWs, List.dropWhile_cons]

theorem skipWs_not_ws {s : Chars} (h : ∀ c, s.head? = some c → isWs c = false) :
    skipWs s = s := by
  cases s with
  | nil => rfl
  | cons c r => simp [skipWs_cons, h c rfl]

theorem listTerm_cases {c : Char} (h : listTerm c = true) : c = ',' ∨ c = ')' := by
  simpa [listTerm, Bool.or_eq_true, decide_eq_true_eq] using h

theorem listTerm_isValTerm {c : Char} (h : listTerm c = true) : isValTerm c = true := by
  rcases listTerm_cases h with rfl | rfl <;> decide

theorem valTermAt_of_listTermAt {rest : Chars} (h : listTermAt rest) : valTermAt rest := by
  obtain ⟨c, r, rfl, hc⟩ := h
  exact ⟨c, r, rfl, listTerm_isValTerm hc⟩

/-!
## Digit-string lemmas
-/

theorem joinSep_two (sep a b : Chars) (t : List Chars) :
    joinSep sep (a :: b :: t) = a ++ sep ++ joinSep sep (b :: t) := rfl

theorem cnameStart_cnameChar {c : Char} (h : isCnameStart c = true) : isCnameChar c = true := by
  simp only [isCnameStart, Bool.or_eq_true, decide_eq_true_eq] at h
  simp only [isCnameChar, Bool.or_eq_true, decide_eq_true_eq]
  tauto

theorem alistGet_append_left {κ ν : Type} [DecidableEq κ] {k : κ} :
    ∀ {l1 : List (κ × ν)} (l2 : List (κ × ν)), (alistGet k l1).isSome = true →
      alistGet k (l1 ++ l2) = alistGet k l1
  | [], _, h => by cases h
  | (k', v') :: rest, l2, h => by
      rw [List.cons_append, alistGet, alistGet]
      by_cases hk : k' = k
      · rw [if_pos hk, if_pos hk]
      · rw [if_neg hk, if_neg hk]
        rw [alistGet, if_neg hk] at h
        exact alistGet_append_left l2 h

theorem alistGet_append_right {κ ν : Type} [DecidableEq κ] {k : κ} :
    ∀ {l1 : List (κ × ν)} (l2 : List (κ × ν)), alistGet k l1 = none →
      alistGet k (l1 ++ l2) = alistGet k l2
  | [], _, _ => rfl
  | (k', v') :: rest, l2, h => by
      rw [alistGet] at h
      rw [List.cons_append, alistGet]
      by_cases hk : k' = k
      · rw [if_pos hk] at h
        cases h
      · rw [if_neg hk] at h ⊢
        exact alistGet_append_right l2 h

theorem alistGet_appendEntry (d c : ICoord) (r : CheckResult) :
    ∀ (f : Failures), alistGet d (alistAppendEntry c r f)
      = (alistGet d f).map fun l => if d = c then l ++ [r] else l
  | [] => rfl
  | (c', l') :: rest => by
      have ih := alistGet_appendEntry d c r rest
      rw [alistAppendEntry] at ih ⊢
      rw [List.map_cons]
      by_cases hc : c' = c
      · rw [if_pos hc, alistGet, alistGet]
        by_cases hd : c' = d
        · rw [if_pos hd, if_pos hd, Option.map_some',
            if_pos (show d = c from hd ▸ hc)]
        · rw [if_neg hd, if_neg hd]
          exact ih
      · rw [if_neg hc, alistGet, alistGet]
        by_cases hd : c' = d
        · rw [if_pos hd, if_pos hd, Option.map_some',
            if_neg (show ¬ d = c from fun h => hc (by rw [hd, h]))]
        · rw [if_neg hd, if_neg hd]
          exact ih

theorem appendEntry_fold_get (d c : ICoord) :
    ∀ (rs : List CheckResult) (f : Failures),
      alistGet d (rs.foldl (fun acc r => alistAppendEntry c r acc) f)
        = (alistGet d f).map fun l => if d = c then l ++ rs else l
  | [], f => by
      rw [List.foldl_nil]
      cases h : alistGet d f with
      | none => rfl
      | some l =>
          rw [Option.map_some']
          simp
  | r :: rs', f => by
      rw [List.foldl_cons, appendEntry_fold_get d c rs' (alistAppendEntry c r f),
        alistGet_appendEntry]
      cases h : alistGet d f with
      | none => rfl
      | some l =>
          rw [Option.map_some', Option.map_some', Option.map_some']
          by_cases hd : d = c
          · rw [if_pos hd, if_pos hd, if_pos hd]
            simp
          · rw [if_neg hd, if_neg hd, if_neg hd]

theorem combineFind_append (o : Option (List CheckResult)) (xs ys : List CheckResult) :
    combineFind (combineFind o xs) ys = combineFind o (xs ++ ys) := by
  cases o with
  | none =>
      cases xs with
      | nil => rfl
      | cons x xs' => rfl
  | some l =>
      show some (l ++ xs ++ ys) = some (l ++ (xs ++ ys))
      rw [List.append_assoc]

theorem recordResults_get (d c : ICoord) (fails : Failures) (rs : List CheckResult) :
    alistGet d (recordResults c fails rs)
      = if d = c then combineFind (alistGet d fails) rs else alistGet d fails := by
  rw [recordResults]
  by_cases hrs : rs = []
  · rw [if_pos hrs]
    by_cases hd : d = c
    · rw [if_pos hd, hrs]
      cases h : alistGet d fails with
      | none => rfl
      | some l => rw [combineFind, List.append_nil]
    · rw [if_neg hd]
  · rw [if_neg hrs]
    have hfold := appendEntry_fold_get d c rs
    by_cases hex : (alistGet c fails).isSome
    · rw [if_pos hex, hfold]
      by_cases hd : d = c
      · subst hd
        cases h : alistGet d fails with
        | none => rw [h] at hex; cases hex
        | some l =>
            rw [Option.map_some', if_pos rfl, if_pos rfl, combineFind]
      · cases h : alistGet d fails with
        | none => rw [if_neg hd]; rfl
        | some l => rw [Option.map_some', if_neg hd, if_neg hd]
    · rw [if_neg hex, hfold]
      by_cases hd : d = c
      · subst hd
        have hnone : alistGet d fails = none := by
          cases h : alistGet d fails with
          | none => rfl
          | some l => rw [h] at hex; exact absurd rfl hex
        rw [alistGet_append_right _ hnone]
        rw [show alistGet d ([(d, ([] : List CheckResult))]) = some [] from by
          rw [alistGet, if_pos rfl]]
        rw [Option.map_some', if_pos rfl, if_pos rfl, hnone]
        cases rs with
        | nil => exact absurd rfl hrs
        | cons r rs' =>
            show some ([] ++ (r :: rs')) = combineFind none (r :: rs')
            rw [List.nil_append]
            rfl
      · by_cases hdf : (alistGet d fails).isSome
        · cases h : alistGet d fails with
          | none => rw [h] at hdf; cases hdf
          | some l =>
              rw [alistGet_append_left _ (by rw [h]; rfl), h, Option.map_some',
                if_neg hd, if_neg hd]
        · have hnone : alistGet d fails = none := by
            cases h : alistGet d fails with
            | none => rfl
            | some l => rw [h] at hdf; exact absurd rfl hdf
          rw [alistGet_append_right _ hnone]
          rw [show alistGet d ([(c, ([] : List CheckResult))]) = none from by
            rw [alistGet, if_neg (fun h => hd h.symm)]; rfl]
          rw [if_neg hd, hnone]
          rfl

theorem combineFind_nil (o : Option (List CheckResult)) : combineFind o [] = o := by
  cases o with
  | none => rfl
  | some l =>
      show some (l ++ []) = some l
      rw [List.append_nil]

theorem recordResults_fold_get (c d : ICoord) :
    ∀ (afs : List (List CheckResult)) (fails : Failures),
      alistGet d (afs.foldl (recordResults c) fails)
        = if d = c then combineFind (alistGet d fails) afs.flatten
          else alistGet d fails
  | [], fails => by
      rw [List.foldl_nil, List.flatten_nil]
      by_cases hd : d = c
      · rw [if_pos hd, combineFind_nil]
      · rw [if_neg hd]
  | rs :: afs', fails => by
      rw [List.foldl_cons, recordResults_fold_get c d afs' (recordResults c fails rs),
        recordResults_get, List.flatten_cons]
      by_cases hd : d = c
      · rw [if_pos hd, if_pos hd, if_pos hd, combineFind_append]
      · rw [if_neg hd, if_neg hd, if_neg hd]

theorem processTile_get {checklist : List Check} {keys : List (Chars × Tile)}
    {c : ICoord} {k : Chars} {fails fails' : Failures}
    (h : processTile checklist keys c k fails = some fails') :
    ∃ t, alistGet k keys = some t ∧
      ∀ d, alistGet d fails'
        = if d = c then combineFind (alistGet d fails) (tileFindings checklist t)
          else alistGet d fails := by
  rw [processTile] at h
  cases hk : alistGet k keys with
  | none => rw [hk] at h; cases h
  | some t =>
      rw [hk] at h
      simp only [Option.bind_eq_bind, Option.some_bind] at h
      refine ⟨t, rfl, ?_⟩
      intro d
      have hres : fails' = if all_findings checklist t = [] then fails
          else (all_findings checklist t).foldl (recordResults c) fails := by
        cases h
        rfl
      by_cases hafs : all_findings checklist t = []
      · rw [hres, if_pos hafs]
        rw [tileFindings, hafs, List.flatten_nil]
        by_cases hd : d = c
        · rw [if_pos hd, combineFind_nil]
        · rw [if_neg hd]
      · rw [hres, if_neg hafs, recordResults_fold_get, tileFindings]

theorem gatherAt_append (chk : List Check) (keys : List (Chars × Tile)) (d : ICoord) :
    ∀ (l1 l2 : List (ICoord × Chars)),
      gatherAt chk keys d (l1 ++ l2) = gatherAt chk keys d l1 ++ gatherAt chk keys d l2
  | [], l2 => rfl
  | (c, k) :: rest, l2 => by
      rw [List.cons_append, gatherAt, gatherAt, gatherAt_append chk keys d rest l2,
        List.append_assoc]

theorem processRow_get {checklist : List Check} {keys : List (Chars × Tile)} {x z : Nat} :
    ∀ {y : Nat} {row : List Chars} {fails fails' : Failures},
      processRow checklist keys x z y row fails = some fails' →
      ∀ d, alistGet d fails'
        = combineFind (alistGet d fails) (gatherAt checklist keys d (rowPairs x z y row))
  | y, [], fails, fails', h, d => by
      rw [processRow] at h
      cases h
      rw [rowPairs, gatherAt, combineFind_nil]
  | y, k :: rest, fails, fails', h, d => by
      rw [processRow] at h
      cases h1 : processTile checklist keys ((x : Int), 256 - (y : Int), (z : Int)) k fails with
      | none => rw [h1] at h; cases h
      | some fails1 =>
          rw [h1] at h
          simp only [Option.bind_eq_bind, Option.some_bind] at h
          obtain ⟨t, hkt, hch⟩ := processTile_get h1
          have hrec := processRow_get h d
          rw [rowPairs, gatherAt, hrec, hch d]
          by_cases hd : d = ((x : Int), 256 - (y : Int), (z : Int))
          · rw [if_pos hd, if_pos (hd.symm), hkt, combineFind_append]
          · rw [if_neg hd, if_neg (fun hcd => hd hcd.symm), List.nil_append]

theorem processEntries_get {checklist : List Check} {keys : List (Chars × Tile)} :
    ∀ {entries : List (Coord × List Chars)} {fails fails' : Failures},
      processEntries checklist keys entries fails = some fails' →
      ∀ d, alistGet d fails'
        = combineFind (alistGet d fails) (gatherAt checklist keys d (gridPairs entries))
  | [], fails, fails', h, d => by
      rw [processEntries] at h
      cases h
      rw [gridPairs, gatherAt, combineFind_nil]
  | (coords, row) :: rest, fails, fails', h, d => by
      rw [processEntries] at h
      cases h1 : processRow checklist keys coords.1 coords.2.2 1 row fails with
      | none => rw [h1] at h; cases h
      | some fails1 =>
          rw [h1] at h
          simp only [Option.bind_eq_bind, Option.some_bind] at h
          have hrec := processEntries_get h d
          rw [gridPairs, gatherAt_append, hrec, processRow_get h1 d, combineFind_append]

theorem computeFailures_get {checklist : List Check} {md : Model} {fails : Failures}
    (h : computeFailures checklist md = some fails) (d : ICoord) :
    alistGet d fails = combineFind none (gatherAt checklist md.keys d (gridPairs md.map)) := by
  rw [computeFailures] at h
  have := processEntries_get h d
  rw [this]
  rfl

theorem processEntries_remapB (chk : List Check) (keys : List (Chars × Tile))
    (g : Coord → Nat) :
    ∀ (entries : List (Coord × List Chars)) (fails : Failures),
      processEntries chk keys (remapB g entries) fails
        = processEntries chk keys entries fails
  | [], fails => rfl
  | (coords, row) :: rest, fails => by
      rw [remapB, List.map_cons]
      dsimp only
      rw [processEntries, processEntries]
      dsimp only
      cases hpr : processRow chk keys coords.1 coords.2.2 1 row fails with
      | none => rfl
      | some fails1 =>
          simp only [Option.bind_eq_bind, Option.some_bind]
          have := processEntries_remapB chk keys g rest fails1
          rw [remapB] at this
          exact this

theorem listPop_cons_succ {α : Type} (a : α) (l : List α) (i : Nat) :
    listPop (a :: l) (i + 1) = a :: listPop l i := rfl

theorem pop_shift (d : Datum) : ∀ (is : List Nat) (t : Tile),
    List.foldl listPop (d :: t) (is.map (· + 1)) = d :: List.foldl listPop t is
  | [], t => rfl
  | i :: is', t => by
      rw [List.map_cons, List.foldl_cons, listPop_cons_succ, List.foldl_cons]
      exact pop_shift d is' (listPop t i)

theorem map_add_shift (n : Nat) (xs : List Nat) :
    (xs.map (· + 1)).map (· + n) = xs.map (· + (n + 1)) := by
  rw [List.map_map]
  apply List.map_congr_left
  intro a _
  dsimp only [Function.comp]
  omega

theorem dels_eq (p : Chars) : ∀ (n : Nat) (t : Tile),
    (((t.enumFrom n).filter fun x => decide (x.2.name = p)).map Prod.fst)
      = (delIdx p t).map (· + n)
  | n, [] => rfl
  | n, d :: t => by
      rw [List.enumFrom_cons, List.filter_cons, delIdx]
      by_cases hd : d.name = p
      · rw [if_pos (by dsimp only; rw [decide_eq_true hd]), if_pos hd]
        rw [List.map_cons, List.map_cons]
        rw [dels_eq p (n + 1) t, map_add_shift]
        dsimp only
        rw [Nat.zero_add]
      · rw [if_neg (by dsimp only; rw [decide_eq_false hd]; exact Bool.false_ne_true),
          if_neg hd]
        rw [dels_eq p (n + 1) t, map_add_shift]

theorem del_aux (p : Chars) : ∀ (t : Tile),
    List.foldl listPop t (delIdx p t).reverse
      = t.filter fun d => !(decide (d.name = p))
  | [] => rfl
  | d :: t => by
      rw [delIdx, List.filter_cons]
      by_cases hd : d.name = p
      · rw [if_pos hd]
        rw [show (!decide (d.name = p)) = false from by rw [decide_eq_true hd]; rfl]
        rw [if_neg (by exact Bool.false_ne_true)]
        rw [List.reverse_cons, List.foldl_append]
        rw [← List.map_reverse, pop_shift]
        rw [List.foldl_cons, List.foldl_nil]
        rw [show listPop (d :: List.foldl listPop t (delIdx p t).reverse) 0
            = List.foldl listPop t (delIdx p t).reverse from rfl]
        exact del_aux p t
      · rw [if_neg hd]
        rw [show (!decide (d.name = p)) = true from by rw [decide_eq_false hd]; rfl]
        rw [if_pos rfl]
        rw [← List.map_reverse, pop_shift]
        rw [del_aux p t]

theorem del_datums_filter (t : Tile) (p : Chars) :
    del_datums_of_type t p = t.filter fun d => !(decide (d.name = p)) := by
  rw [del_datums_of_type]
  have h := dels_eq p 0 t
  rw [show t.enum = t.enumFrom 0 from rfl, h]
  rw [show (delIdx p t).map (· + 0) = (delIdx p t).map id from by
    apply List.map_congr_left; intro a _; rfl]
  rw [List.map_id]
  exact del_aux p t

theorem alistGet_alistSet_self {κ ν : Type} [DecidableEq κ] (k : κ) (v : ν) :
    ∀ (l : List (κ × ν)), alistGet k (alistSet k v l) = some v
  | [] => by rw [alistSet, alistGet, if_pos rfl]
  | (k', v') :: rest => by
      rw [alistSet]
      by_cases hk : k' = k
      · rw [if_pos hk, alistGet, if_pos rfl]
      · rw [if_neg hk, alistGet, if_neg hk]
        exact alistGet_alistSet_self k v rest

theorem get?_set_self {α : Type} : ∀ (l : List α) (i : Nat) (a : α), i < l.length →
    (l.set i a).get? i = some a
  | [], i, a, h => by simp at h
  | a' :: l, 0, a, _ => rfl
  | a' :: l, i + 1, a, h => by
      rw [List.set_cons_succ, List.get?_cons_succ]
      exact get?_set_self l i a (by simp at h; omega)

theorem rowPairs_get (x z : Nat) : ∀ (y : Nat) (row : List Chars) (i : Nat)
      (h : i < row.length),
    (rowPairs x z y row).get? i
      = some (((x : Int), 256 - ((y : Int) + (i : Int)), (z : Int)), row.get ⟨i, h⟩)
  | y, [], i, h => by simp at h
  | y, k :: rest, 0, h => by
      rw [rowPairs, List.get?_cons_zero]
      rw [show ((y : Int) + ((0 : Nat) : Int)) = (y : Int) from by push_cast; ring]
      rfl
  | y, k :: rest, i + 1, h => by
      rw [rowPairs, List.get?_cons_succ]
      rw [rowPairs_get x z (y + 1) rest i (by simp at h; omega)]
      rw [show (((y + 1 : Nat) : Int) + (i : Int)) = ((y : Int) + ((i + 1 : Nat) : Int))
        from by push_cast; ring]
      rfl

/-- C2 (counterexample): the value 1000000 does NOT serialize with a
two-digit exponent `1e+06`; the writer's format hook pads the exponent to
three digits, producing `1e+006`. -/
theorem claim_C2_counterexample :
    write_val (.num 1000000) ≠ ('1' :: 'e' :: '+' :: '0' :: '6' :: [])
    ∧ write_val (.num 1000000) = ('1' :: 'e' :: '+' :: '0' :: '0' :: '6' :: []) :=
  ⟨by decide, by decide⟩

/-- C2 (amended): 1000000 serializes in scientific notation with a
sign-prefixed, zero-padded THREE-digit exponent (`1e+006`), and 999999
serializes as the plain decimal `999999`. -/
theorem claim_C2 :
    write_val (.num 1000000) = ('1' :: 'e' :: '+' :: '0' :: '0' :: '6' :: [])
    ∧ write_val (.num 999999) = ('9' :: '9' :: '9' :: '9' :: '9' :: '9' :: []) :=
  ⟨by decide, by decide⟩

/-- C3 (counterexample): in `list({"k": "v"}, 1, 2)` the separator between
the two non-dict elements 1 and 2 is NOT a bare comma: one dict element
latches `add_spacing`, so every separator becomes comma-space. -/
theorem claim_C3_counterexample :
    write_val (.list [.dict [(['k'], .str ['v'])], .num 1, .num 2])
      = ('l' :: 'i' :: 's' :: 't' :: '(' :: dquote :: 'k' :: dquote :: ' ' :: '=' :: ' '
          :: dquote :: 'v' :: dquote :: ',' :: ' ' :: '1' :: ',' :: ' ' :: '2' :: ')' :: [])
    ∧ write_val (.list [.dict [(['k'], .str ['v'])], .num 1, .num 2])
      ≠ ('l' :: 'i' :: 's' :: 't' :: '(' :: dquote :: 'k' :: dquote :: ' ' :: '=' :: ' '
          :: dquote :: 'v' :: dquote :: ',' :: ' ' :: '1' :: ',' :: '2' :: ')' :: []) :=
  ⟨by decide, by decide⟩

/-- C3 (amended): the spacing flag is latched for the whole list — when no
element is a dict every separator is a bare comma (in particular for a
list of three integers), and when any element is a dict EVERY separator is
comma-space, including those between non-dict neighbours. -/
theorem claim_C3 :
    (∀ xs : List Val, xs.any Val.isDict = false →
      write_val (.list xs)
        = 'l' :: 'i' :: 's' :: 't' :: '(' :: []
            ++ joinSep [','] (write_parts xs) ++ [')'])
    ∧ (∀ xs : List Val, xs.any Val.isDict = true →
      write_val (.list xs)
        = 'l' :: 'i' :: 's' :: 't' :: '(' :: []
            ++ joinSep (',' :: ' ' :: []) (write_parts xs) ++ [')'])
    ∧ write_val (.list [.num 1, .num 2, .num 3])
        = ('l' :: 'i' :: 's' :: 't' :: '(' :: '1' :: ',' :: '2' :: ',' :: '3' :: ')' :: []) := by
  refine ⟨?_, ?_, by decide⟩
  · intro xs hxs
    rw [write_val, add_spacing, hxs]
    rfl
  · intro xs hxs
    rw [write_val, add_spacing, hxs]
    rfl

theorem claim_C3_witness :
    ([Val.num 1, Val.num 2, Val.num 3].any Val.isDict = false
      ∧ write_val (.list [Val.num 1, Val.num 2, Val.num 3])
          = 'l' :: 'i' :: 's' :: 't' :: '(' :: []
              ++ joinSep [','] (write_parts [Val.num 1, Val.num 2, Val.num 3]) ++ [')'])
    ∧ ([Val.dict [], Val.num 1].any Val.isDict = true
      ∧ write_val (.list [Val.dict [], Val.num 1])
          = 'l' :: 'i' :: 's' :: 't' :: '(' :: []
              ++ joinSep (',' :: ' ' :: []) (write_parts [Val.dict [], Val.num 1]) ++ [')']) :=
  ⟨⟨by decide, claim_C3.1 [Val.num 1, Val.num 2, Val.num 3] (by decide)⟩,
   ⟨by decide, claim_C3.2.1 [Val.dict [], Val.num 1] (by decide)⟩⟩

/-- C4: deleting by type path removes exactly the matching datums and is
order-preserving on the rest — it equals a filter; in particular
`[A, B(X), C, B(X)]` becomes `[A, C]`. -/
theorem claim_C4 :
    (∀ (t : Tile) (p : Chars),
      del_datums_of_type t p = t.filter fun d => !(decide (d.name = p)))
    ∧ del_datums_of_type
        [⟨'/' :: 'a' :: [], none⟩, ⟨'/' :: 'x' :: [], none⟩,
         ⟨'/' :: 'c' :: [], none⟩, ⟨'/' :: 'x' :: [], none⟩] ('/' :: 'x' :: [])
      = [⟨'/' :: 'a' :: [], none⟩, ⟨'/' :: 'c' :: [], none⟩] :=
  ⟨del_datums_filter, rfl⟩

/-- C5: reading a property that was never set on a datum is a lookup
failure (`KeyError`, modelled as `none`), not a silent null; a property
explicitly set to null reads back as the null value. -/
theorem claim_C5 (t : Tile) (i : Nat) (k : Chars) (d : Datum)
    (hd : t.get? i = some d)
    (hnever : ∀ vs, d.values = some vs → alistGet k vs = none) :
    get_value t i k = none
    ∧ ∀ t2, set_value t i k .null = some t2 → get_value t2 i k = some Val.null := by
  have hlt : i < t.length := by
    by_contra hge
    rw [List.get?_eq_none.mpr (by omega)] at hd
    cases hd
  constructor
  · rw [get_value, hd]
    simp only []
    cases hv : d.values with
    | none => rfl
    | some vs => exact hnever vs hv
  · intro t2 ht2
    rw [set_value, hd] at ht2
    simp only [] at ht2
    cases ht2
    rw [get_value, get?_set_self t i _ hlt]
    simp only []
    exact alistGet_alistSet_self k Val.null _

theorem claim_C5_witness :
    (exTile.get? 0 = some ⟨'/' :: 'a' :: [], some [(['p'], Val.null)]⟩)
    ∧ (get_value exTile 0 ['q'] = none
      ∧ ∀ t2, set_value exTile 0 ['q'] Val.null = some t2 →
          get_value t2 0 ['q'] = some Val.null)
    ∧ get_value exTile 0 ['p'] = some Val.null :=
  ⟨rfl,
   claim_C5 exTile 0 ['q'] ⟨'/' :: 'a' :: [], some [(['p'], Val.null)]⟩ rfl
     (by intro vs hvs; cases hvs; rfl),
   rfl⟩

/-- C6: a reader is single-use — once a `Read` succeeded, a second `Read`
on the resulting state fails with the already-parsed error instead of
parsing again. -/
theorem claim_C6 (contents : Chars) (m : Model) (st2 : ReaderState)
    (h : Reader.Read contents Reader.init = .ok (m, st2)) :
    Reader.Read contents st2 = .error .alreadyParsed := by
  rw [Reader.Read] at h
  rw [if_neg (show ¬(Reader.init.parsed = true) from by decide)] at h
  cases hp : parse contents with
  | none => rw [hp] at h; cases h
  | some m2 =>
      rw [hp] at h
      injection h with h1
      injection h1 with h2 h3
      rw [Reader.Read, ← h3]
      rfl

theorem claim_C6_witness :
    Reader.Read (write_file exModel) Reader.init
      = .ok (exModel, { parsed := true })
    ∧ Reader.Read (write_file exModel) { parsed := true }
      = .error .alreadyParsed :=
  ⟨rfl, claim_C6 (write_file exModel) exModel { parsed := true } rfl⟩

/-- C7: after `perform_checks`, a coordinate to which no check contributed
any finding has no entry at all in `lint_failures`, and a coordinate whose
only contribution is a single finding has exactly the one-element list. -/
theorem claim_C7 {checklist : List Check} {readResult : Model} {st st2 : LinterState}
    (h : perform_checks checklist readResult st = some st2) (d : ICoord) :
    (gatherAt checklist (st.mapdata.getD readResult).keys d
        (gridPairs (st.mapdata.getD readResult).map) = [] →
      alistGet d st2.lint_failures = none)
    ∧ ∀ r, gatherAt checklist (st.mapdata.getD readResult).keys d
        (gridPairs (st.mapdata.getD readResult).map) = [r] →
      alistGet d st2.lint_failures = some [r] := by
  rw [perform_checks] at h
  cases hcf : computeFailures checklist (st.mapdata.getD readResult) with
  | none =>
      rw [hcf] at h
      cases h
  | some fails =>
      rw [hcf] at h
      simp only [Option.bind_eq_bind, Option.some_bind] at h
      cases h
      have hg := computeFailures_get hcf d
      constructor
      · intro hnil
        rw [hg, hnil]
        rfl
      · intro r hone
        rw [hg, hone]
        rfl

theorem claim_C7_witness :
    (perform_checks exChecklist exModelB { lint_failures := [], mapdata := none }
      = some { lint_failures := [((3, 255, 4), [⟨2, "tile"⟩])], mapdata := some exModelB })
    ∧ (gatherAt exChecklist exModelB.keys (0, 0, 0) (gridPairs exModelB.map) = []
      ∧ alistGet ((0 : Int), (0 : Int), (0 : Int))
          ([((3, 255, 4), [(⟨2, "tile"⟩ : CheckResult)])] : Failures) = none)
    ∧ (gatherAt exChecklist exModelB.keys (3, 255, 4) (gridPairs exModelB.map)
        = [⟨2, "tile"⟩]
      ∧ alistGet ((3 : Int), (255 : Int), (4 : Int))
          ([((3, 255, 4), [(⟨2, "tile"⟩ : CheckResult)])] : Failures) = some [⟨2, "tile"⟩]) :=
  ⟨rfl,
   ⟨rfl, (@claim_C7 exChecklist exModelB ⟨[], none⟩
      ⟨[((3, 255, 4), [⟨2, "tile"⟩])], some exModelB⟩
      rfl (0, 0, 0)).1 rfl⟩,
   ⟨rfl, (@claim_C7 exChecklist exModelB ⟨[], none⟩
      ⟨[((3, 255, 4), [⟨2, "tile"⟩])], some exModelB⟩
      rfl (3, 255, 4)).2 ⟨2, "tile"⟩ rfl⟩⟩

/-- C8: `perform_checks` clears previous findings and rebuilds them from
the cached model, so running it a second time on the state it produced
returns that state unchanged (idempotence). -/
theorem claim_C8 {checklist : List Check} {readResult : Model} {st st2 : LinterState}
    (h : perform_checks checklist readResult st = some st2) :
    perform_checks checklist readResult st2 = some st2 := by
  rw [perform_checks] at h
  cases hcf : computeFailures checklist (st.mapdata.getD readResult) with
  | none =>
      rw [hcf] at h
      cases h
  | some fails =>
      rw [hcf] at h
      simp only [Option.bind_eq_bind, Option.some_bind] at h
      cases h
      rw [perform_checks]
      dsimp only
      rw [Option.getD_some, hcf]
      rfl

theorem claim_C8_witness :
    perform_checks exChecklist exModelB { lint_failures := [], mapdata := none }
      = some { lint_failures := [((3, 255, 4), [⟨2, "tile"⟩])], mapdata := some exModelB }
    ∧ perform_checks exChecklist exModelB
        { lint_failures := [((3, 255, 4), [⟨2, "tile"⟩])], mapdata := some exModelB }
      = some { lint_failures := [((3, 255, 4), [⟨2, "tile"⟩])], mapdata := some exModelB } :=
  ⟨rfl, @claim_C8 exChecklist exModelB ⟨[], none⟩
    ⟨[((3, 255, 4), [⟨2, "tile"⟩])], some exModelB⟩ rfl⟩

/-- C9: the scientific-notation branch is guarded by a signed comparison
with 999999, so every value at or below it — in particular every negative
value, however large in magnitude — is written as its plain decimal
representation. -/
theorem claim_C9 (v : Int) (h : v ≤ 999999) : write_val (.num v) = intChars v := by
  rw [write_val, if_neg (by omega)]

theorem claim_C9_witness :
    ((-10000000 : Int) ≤ 999999 ∧ write_val (.num (-10000000)) = intChars (-10000000))
    ∧ write_val (.num (-10000000))
        = ('-' :: '1' :: '0' :: '0' :: '0' :: '0' :: '0' :: '0' :: '0' :: []) :=
  ⟨⟨by decide, claim_C9 (-10000000) (by decide)⟩, by decide⟩

/-- C10: the findings of the i-th key of a grid row (counting from 1) are
recorded under display coordinate (a, 256 - i, c): the processed
coordinate/key pairs of a row entry ((a,b,c), row) list the i-th key under
(a, 256 - (i+1-1) - 1 + 1, c) independent of b, what `perform_checks`
records is exactly determined by those pairs, and replacing every b
component leaves the outcome unchanged (b is never read). -/
theorem claim_C10 (checklist : List Check) (K : List (Chars × Tile))
    (mp : List (Coord × List Chars)) (g : Coord → Nat) (fails : Failures)
    (a b c : Nat) (row : List Chars) (i : Nat) (h : i < row.length) :
    processEntries checklist K (remapB g mp) fails = processEntries checklist K mp fails
    ∧ (gridPairs [((a, b, c), row)]).get? i
        = some (((a : Int), 256 - ((i : Int) + 1), (c : Int)), row.get ⟨i, h⟩)
    ∧ ∀ (md : Model) (fails2 : Failures),
        computeFailures checklist md = some fails2 →
        ∀ d, alistGet d fails2
          = combineFind none (gatherAt checklist md.keys d (gridPairs md.map)) := by
  refine ⟨processEntries_remapB checklist K g mp fails, ?_,
    fun md fails2 hmd d => computeFailures_get hmd d⟩
  rw [gridPairs]
  rw [show rowPairs ((a, b, c) : Coord).1 ((a, b, c) : Coord).2.2 1 row ++ gridPairs []
      = rowPairs a c 1 row from by rw [gridPairs, List.append_nil]]
  rw [rowPairs_get a c 1 row i h]
  rw [show ((1 : Nat) : Int) + (i : Int) = (i : Int) + 1 from by ring]

theorem claim_C10_witness :
    ((0 : Nat) < ([['a']] : List Chars).length)
    ∧ processEntries exChecklist exModelB.keys (remapB (fun _ => 9) exModelB.map) []
        = processEntries exChecklist exModelB.keys exModelB.map []
    ∧ (gridPairs [((3, 7, 4), [['a']])]).get? 0
        = some (((3 : Int), 256 - ((0 : Int) + 1), (4 : Int)),
            ([['a']] : List Chars).get ⟨0, by decide⟩) :=
  ⟨by decide,
   (claim_C10 exChecklist exModelB.keys exModelB.map (fun _ => 9) [] 3 7 4 [['a']] 0
      (by decide)).1,
   (claim_C10 exChecklist exModelB.keys exModelB.map (fun _ => 9) [] 3 7 4 [['a']] 0
      (by decide)).2.1⟩
